import Mathlib

/-!
Verification development for `src/ir/item.rs` of cargo-call-stack: the
item-level dispatcher over textual LLVM-IR constructs and its recognizers.

The nom parsers over `CompleteStr` are embedded shallowly as pure functions
`List Char → Except (List Char) (List Char × α)`: a success carries the
unconsumed remainder and the parsed value, a failure carries the input
position at which the failing parser was applied (nom's `Context(input, _)`).

The low-level collaborators that live in `src/ir/mod.rs` and
`src/ir/define.rs` of the repository (not part of the sources at hand) are
modelled from the specification; each such definition says so in its doc
comment.  Everything in namespace `IrItem` is translated directly from
`src/ir/item.rs`.
-/

abbrev Str := List Char

/-- Shallow embedding of a nom parser over `CompleteStr`. -/
def P (α : Type) : Type := Str → Except Str (Str × α)

/-- Sequencing of parsers (the `>>` chaining inside `do_parse!`). -/
def pbind {α β : Type} (p : P α) (f : α → P β) : P β := fun s =>
  match p s with
  | .error e => .error e
  | .ok (r, a) => f a r

/-- A parser that consumes nothing and returns `a`. -/
def ppure {α : Type} (a : α) : P α := fun s => .ok (s, a)

/-- A parser that always fails at its input position. -/
def pfail {α : Type} : P α := fun s => .error s

/-- nom's `alt!`: on failure of `p`, run `q` on the very same input. -/
def palt {α : Type} (p q : P α) : P α := fun s =>
  match p s with
  | .ok o => .ok o
  | .error _ => q s

/-- nom's `map!`. -/
def pmap {α β : Type} (f : α → β) (p : P α) : P β :=
  pbind p fun a => ppure (f a)

/-- nom's `tag!`: match a literal, consuming it; fail at the input otherwise. -/
def ptag (t : Str) : P Unit := fun s =>
  if t.isPrefixOf s then .ok (s.drop t.length, ()) else .error s

/-- nom's `char!`. -/
def pchar (c : Char) : P Unit := fun s =>
  match s with
  | [] => .error []
  | d :: r => if d = c then .ok (r, ()) else .error (d :: r)

/-- Take zero or more characters satisfying `f` (always succeeds, as on
`CompleteStr`). -/
def ptakeWhile (f : Char → Bool) : P Str := fun s =>
  .ok (s.dropWhile f, s.takeWhile f)

/-- Take one or more characters satisfying `f`. -/
def ptakeWhile1 (f : Char → Bool) : P Str := fun s =>
  if (s.takeWhile f).isEmpty then .error s else .ok (s.dropWhile f, s.takeWhile f)

/-- nom's `space`: one or more of space/tab. -/
def pspace : P Str := ptakeWhile1 (fun c => c == ' ' || c == '\t')

/-- nom's `space0`: zero or more of space/tab. -/
def pspace0 : P Str := ptakeWhile (fun c => c == ' ' || c == '\t')

/-- Is `c` a line-ending character? -/
def isEol (c : Char) : Bool := c == '\n' || c == '\r'

/-- nom's `not_line_ending` on `CompleteStr`: everything up to the first
line-ending character (or the whole input). -/
def pnotLineEnding : P Str := ptakeWhile (fun c => !isEol c)

/-- The suffix of `s` that starts at its first line-ending character
(empty when `s` has none). -/
def eolSuffix (s : Str) : Str := s.dropWhile (fun c => !isEol c)

/-- Fuelled loop of `pmany0`; nom's `many0!` stops on the first failure of
the inner parser and rejects an inner success that consumed nothing. -/
def pmany0Go {α : Type} (p : P α) : Nat → Str → Except Str (Str × List α)
  | 0, s => .error s
  | fuel + 1, s =>
    match p s with
    | .error _ => .ok (s, [])
    | .ok (r, a) =>
      if r = s then .error s
      else
        match pmany0Go p fuel r with
        | .error e => .error e
        | .ok (r2, as) => .ok (r2, a :: as)

/-- nom's `many0!`.  Each successful inner step consumes at least one
character, so `length + 1` units of fuel can never run out. -/
def pmany0 {α : Type} (p : P α) : P (List α) := fun s =>
  pmany0Go p (s.length + 1) s

/-- Fuelled loop of `psepList`: repeatedly a separator then an element;
nom's `separated_list!` backtracks to before the separator as soon as the
separator or the element fails. -/
def psepListGo {α β : Type} (sep : P β) (p : P α) :
    Nat → Str → Except Str (Str × List α)
  | 0, s => .error s
  | fuel + 1, s =>
    match sep s with
    | .error _ => .ok (s, [])
    | .ok (r1, _) =>
      if r1 = s then .error s
      else
        match p r1 with
        | .error _ => .ok (s, [])
        | .ok (r2, a) =>
          match psepListGo sep p fuel r2 with
          | .error e => .error e
          | .ok (r3, as) => .ok (r3, a :: as)

/-- nom's `separated_list!`: zero or more `p` separated by `sep`. -/
def psepList {α β : Type} (sep : P β) (p : P α) : P (List α) := fun s =>
  match p s with
  | .error _ => .ok (s, [])
  | .ok (r, a) =>
    match psepListGo sep p (r.length + 1) r with
    | .error e => .error e
    | .ok (r2, as) => .ok (r2, a :: as)

/-- nom's `alt!` over a list of alternatives: the first success wins, a
failed alternative consumes nothing visible to the next one, and when all
fail the whole parse fails at the (unconsumed) input position. -/
def runAlts {α : Type} : List (P α) → P α
  | [] => fun s => .error s
  | p :: ps => fun s =>
    match p s with
    | .ok o => .ok o
    | .error _ => runAlts ps s

/-! ## The data model (`src/ir/mod.rs` types, as used by `item.rs`)

`Type` is renamed `Ty` (`Type` is reserved in Lean); `Box` indirections are
erased.  The variants below are the ones the specification names (integer
of a bit width, pointer-to, function types, named/aliased types); the
remaining variants of the external type grammar are not exercised here. -/

inductive Ty where
  | integer : Nat → Ty
  | pointer : Ty → Ty
  | fn : Option Ty → List Ty → Ty
  | alias : Str → Ty

/-- `FnSig`: `output = none` encodes a `void` return. -/
structure FnSig where
  output : Option Ty
  inputs : List Ty

structure Declare where
  name : Str
  sig : Option FnSig

/-- Modelled from the spec: the function-body collaborator returns a fully
parsed definition, wrapped unchanged into the output item; its structure is
opaque to this module, so only the consumed text is retained here. -/
structure Define where
  text : Str

inductive Item where
  | alias : Str → Str → Item
  | comment : Item
  | sourceFilename : Item
  | target : Item
  | global : Item
  | type : Item
  | define : Define → Item
  | declare : Declare → Item
  | attributes : Item
  | metadata : Item

/-! ## Collaborators of `super` (`src/ir/mod.rs`), modelled from the spec -/

namespace Ir

/-- Characters of an unquoted symbol/identifier. -/
def identChar (c : Char) : Bool :=
  c.isAlpha || c.isDigit || c == '_' || c == '.' || c == '$'

/-- Modelled from the spec: a name is either a quoted string (contents stay
on one line) or a run of identifier characters. -/
def nameP : P Str :=
  palt
    (pbind (pchar '"') fun _ =>
     pbind (ptakeWhile (fun c => !(c == '"') && !isEol c)) fun n =>
     pbind (pchar '"') fun _ =>
     ppure n)
    (ptakeWhile1 identChar)

/-- Modelled from the spec: `super::function` recognizes `@` followed by a
symbol name and returns the name (without the sigil). -/
def function : P Str :=
  pbind (pchar '@') fun _ => nameP

/-- Modelled from the spec: `super::global` recognizes the same `@Name`
shape as `super::function` (globals and aliases share the `@Name = `
opening per the spec). -/
def global : P Str := function

/-- Modelled from the spec: `super::alias` recognizes `%` followed by a
name (the sigil of type/local names). -/
def alias_ : P Str :=
  pbind (pchar '%') fun _ => nameP

/-- Modelled from the spec: `super::comment` recognizes the designated
comment-leading character `;` and discards the rest of the line. -/
def comment : P Unit :=
  pbind (pchar ';') fun _ =>
  pbind pnotLineEnding fun _ =>
  ppure ()

/-- Characters of an unquoted attribute token. -/
def attrChar (c : Char) : Bool :=
  c.isAlpha || c.isDigit || c == '_' || c == '-'

/-- Keywords that open a construct's structural part; the attribute
collaborator must not absorb them, or the recognizers' keyword checks
could never fire. -/
def reservedWords : List Str :=
  [("alias".toList), ("global".toList), ("constant".toList), ("type".toList),
   ("void".toList), ("declare".toList), ("define".toList)]

/-- Does the token spell an integer type (`i` followed by digits)?  The
attribute collaborator must leave such tokens to the type grammar. -/
def isIntTok (t : Str) : Bool :=
  match t with
  | 'i' :: ds => !ds.isEmpty && ds.all Char.isDigit
  | _ => false

/-- Modelled from the spec: `super::attribute` recognizes and discards one
attribute token — a keyword, or a quoted key with an optional quoted value.
It has a well-defined stopping point and never absorbs the keywords or type
tokens that open the structural part of a construct. -/
def attr : P Unit :=
  palt
    (pbind (pchar '"') fun _ =>
     pbind (ptakeWhile (fun c => !(c == '"') && !isEol c)) fun _ =>
     pbind (pchar '"') fun _ =>
     palt
       (pbind (pchar '=') fun _ =>
        pbind (pchar '"') fun _ =>
        pbind (ptakeWhile (fun c => !(c == '"') && !isEol c)) fun _ =>
        pbind (pchar '"') fun _ =>
        ppure ())
       (ppure ()))
    (pbind (ptakeWhile1 attrChar) fun tok =>
     if reservedWords.contains tok || isIntTok tok then pfail else ppure ())

/-- Numeric value of a run of decimal digits. -/
def digitsVal (d : Str) : Nat :=
  d.foldl (fun a c => 10 * a + (c.toNat - 48)) 0

/-- An integer type: `i` followed by a bit width. -/
def intTy : P Ty :=
  pbind (pchar 'i') fun _ =>
  pbind (ptakeWhile1 Char.isDigit) fun ds =>
  ppure (Ty.integer (digitsVal ds))

/-- A named (aliased) type: `%` followed by a name. -/
def namedTy : P Ty :=
  pbind (pchar '%') fun _ =>
  pbind nameP fun n =>
  ppure (Ty.alias n)

/-- A non-function head type. -/
def baseTy : P Ty := palt intTy namedTy

/-- The head of a type: `void` (allowed only as a function return) or a
base type. -/
def headTy : P (Option Ty) :=
  palt
    (pbind (ptag (("void".toList))) fun _ => ppure Option.none)
    (pbind baseTy fun t => ppure (Option.some t))

/-- Zero or more postfix `*`, wrapping `t` into pointer types. -/
def starsP (t : Ty) : P Ty :=
  pbind (pmany0 (pchar '*')) fun st =>
  ppure (st.foldl (fun a _ => Ty.pointer a) t)

/-- Separator of a function type's parameter list. -/
def tySep : P Unit :=
  pbind (pchar ',') fun _ =>
  pbind pspace0 fun _ =>
  ppure ()

/-- Modelled from the spec: the recursive type grammar — a head type,
an optional function-type parameter list, then postfix pointer stars.
Recursion (nested pointer/function forms) is bounded by the input length,
threaded as fuel. -/
def parseTy : Nat → P Ty
  | 0 => pfail
  | fuel + 1 =>
    pbind headTy fun h =>
    palt
      (pbind pspace0 fun _ =>
       pbind (pchar '(') fun _ =>
       pbind (psepList tySep (parseTy fuel)) fun args =>
       pbind pspace0 fun _ =>
       pbind (pchar ')') fun _ =>
       starsP (Ty.fn h args))
      (match h with
       | some t => starsP t
       | none => pfail)

/-- Modelled from the spec: `super::type_`, the single-type collaborator. -/
def type_ : P Ty := fun s => parseTy (s.length + 1) s

/-- Modelled from the spec: balanced-brace scan used by the
function-definition collaborator to consume a `define`'s body whole. -/
def braceScan : Str → Nat → Option (Str × Str)
  | [], _ => none
  | c :: cs, d =>
    if c = '}' then
      if d ≤ 1 then some ([c], cs)
      else (braceScan cs (d - 1)).map (fun p => (c :: p.1, p.2))
    else
      (braceScan cs (if c = '{' then d + 1 else d)).map (fun p => (c :: p.1, p.2))

/-- Modelled from the spec: `super::define::parse`, the function-body
collaborator — it recognizes the `define` keyword and consumes the whole
construct through its balanced closing brace, returning the parsed
definition (kept opaque here). -/
def defineParse : P Define :=
  pbind (ptag (("define".toList))) fun _ =>
  pbind pspace fun _ => fun s =>
    match braceScan s 0 with
    | none => .error s
    | some (a, r) => .ok (r, ⟨a⟩)

end Ir

/-! ## The recognizers of `src/ir/item.rs` -/

namespace IrItem

/-- `comment`: `map!(super::comment, |_| Item::Comment)`. -/
def comment : P Item := pmap (fun _ => Item.comment) Ir.comment

/-- `source_filename`: `tag!("source_filename") >> space >> char!('=') >>
not_line_ending`. -/
def source_filename : P Item :=
  pbind (ptag (("source_filename".toList))) fun _ =>
  pbind pspace fun _ =>
  pbind (pchar '=') fun _ =>
  pbind pnotLineEnding fun _ =>
  ppure Item.sourceFilename

/-- `target`: `tag!("target") >> space >> alt!(tag!("datalayout") |
tag!("triple")) >> space >> char!('=') >> not_line_ending`. -/
def target : P Item :=
  pbind (ptag (("target".toList))) fun _ =>
  pbind pspace fun _ =>
  pbind (palt (ptag (("datalayout".toList))) (ptag (("triple".toList)))) fun _ =>
  pbind pspace fun _ =>
  pbind (pchar '=') fun _ =>
  pbind pnotLineEnding fun _ =>
  ppure Item.target

/-- The `many0!(do_parse!(call!(super::attribute) >> space >> (())))`
attribute-skipping loop shared by `alias`, `global` and `declare`. -/
def attrs0 : P (List Unit) :=
  pmany0 (pbind Ir.attr fun _ => pbind pspace fun _ => ppure ())

/-- `alias`: name `= ` attribute* `alias` type `,` type target-name;
both types are parsed for validity and discarded. -/
def alias_ : P Item :=
  pbind Ir.function fun name =>
  pbind pspace fun _ =>
  pbind (pchar '=') fun _ =>
  pbind pspace fun _ =>
  pbind attrs0 fun _ =>
  pbind (ptag (("alias".toList))) fun _ =>
  pbind pspace fun _ =>
  pbind Ir.type_ fun _ =>
  pbind pspace0 fun _ =>
  pbind (pchar ',') fun _ =>
  pbind pspace fun _ =>
  pbind Ir.type_ fun _ =>
  pbind pspace fun _ =>
  pbind Ir.function fun tgt =>
  ppure (Item.alias name tgt)

/-- `global`: name `= ` attribute* (`global`|`constant`) then the rest of
the line is discarded. -/
def global : P Item :=
  pbind Ir.global fun _ =>
  pbind pspace fun _ =>
  pbind (pchar '=') fun _ =>
  pbind pspace fun _ =>
  pbind attrs0 fun _ =>
  pbind (palt (ptag (("global".toList))) (ptag (("constant".toList)))) fun _ =>
  pbind pspace fun _ =>
  pbind pnotLineEnding fun _ =>
  ppure Item.global

/-- `type_`: `%`-name `= ` then — NOTE shortcut — the rest of the line is
discarded without further checks. -/
def type_ : P Item :=
  pbind Ir.alias_ fun _ =>
  pbind pspace fun _ =>
  pbind (pchar '=') fun _ =>
  pbind pnotLineEnding fun _ =>
  ppure Item.type

/-- The common head of `declare`: `tag!("declare") >> space >> attribute*
>> alt!(type_ → Some | tag!("void") → None) >> space >> function >>
char!('(')`, yielding the return type and the symbol name. -/
def declareHead : P (Option Ty × Str) :=
  pbind (ptag (("declare".toList))) fun _ =>
  pbind pspace fun _ =>
  pbind attrs0 fun _ =>
  pbind (palt (pmap Option.some Ir.type_)
              (pmap (fun _ => Option.none) (ptag (("void".toList))))) fun output =>
  pbind pspace fun _ =>
  pbind Ir.function fun name =>
  pbind (pchar '(') fun _ =>
  ppure (output, name)

/-- One parameter of a non-intrinsic `declare`: a type followed by zero or
more parameter attributes (consumed and discarded). -/
def paramP : P Ty :=
  pbind Ir.type_ fun ty =>
  pbind (pmany0 (pbind pspace fun _ => pbind Ir.attr fun _ => ppure ())) fun _ =>
  ppure ty

/-- Separator of `declare`'s parameter list: `char!(',') >> space`. -/
def sepP : P Unit :=
  pbind (pchar ',') fun _ =>
  pbind pspace fun _ =>
  ppure ()

/-- `declare`: after the common head, branch on the name — an
`llvm.`-prefixed intrinsic skips to end of line with `sig: None`; any
other symbol parses the full parameter list into a signature and then
skips the trailing attributes on the line. -/
def declare : P Item :=
  pbind declareHead fun hn =>
  if (("llvm.".toList)).isPrefixOf hn.2 then
    pbind pnotLineEnding fun _ =>
    ppure (Item.declare ⟨hn.2, none⟩)
  else
    pbind (psepList sepP paramP) fun inputs =>
    pbind (pchar ')') fun _ =>
    pbind pnotLineEnding fun _ =>
    ppure (Item.declare ⟨hn.2, some ⟨hn.1, inputs⟩⟩)

/-- `attributes`: `tag!("attributes") >> space >> char!('#')` then the rest
of the line is discarded. -/
def attributes : P Item :=
  pbind (ptag (("attributes".toList))) fun _ =>
  pbind pspace fun _ =>
  pbind (pchar '#') fun _ =>
  pbind pnotLineEnding fun _ =>
  ppure Item.attributes

/-- `metadata`: `tag!("!")` then the rest of the line is discarded. -/
def metadata : P Item :=
  pbind (ptag (['!'])) fun _ =>
  pbind pnotLineEnding fun _ =>
  ppure Item.metadata

/-- The fixed priority order of `item`'s alternatives. -/
def recList : List (P Item) :=
  [comment, source_filename, target, type_, global, alias_,
   pmap Item.define Ir.defineParse, declare, attributes, metadata]

/-- `item`: the dispatcher, `alt!` over the recognizers in `recList`'s
order. -/
def item : P Item := runAlts recList

end IrItem

/-! ## Predicates and auxiliary definitions used by the statements -/

/-- The parser fails on `s`. -/
def Fails {α : Type} (p : P α) (s : Str) : Prop := ∃ e, p s = Except.error e

/-- The parser succeeds on `s`. -/
def Succeeds {α : Type} (p : P α) (s : Str) : Prop := ∃ o, p s = Except.ok o

/-- Whatever the parser consumes on success contains no line-ending
character (the consumed text stays on one line). -/
def NoEolConsumed {α : Type} (p : P α) : Prop :=
  ∀ s r v, p s = Except.ok (r, v) →
    ∃ a, s = a ++ r ∧ ∀ c ∈ a, isEol c = false

/-- On success the parser's remainder is exactly the suffix of its input
that starts at the first line-ending character (empty when there is none). -/
def EndsAtEol {α : Type} (p : P α) : Prop :=
  ∀ s r v, p s = Except.ok (r, v) → r = eolSuffix s

/-- Rendered continuation of a parameter list: `, iW` for each width. -/
def renderTail2 : List Str → Str
  | [] => []
  | d :: t => ',' :: ' ' :: 'i' :: (d ++ renderTail2 t)

/-- Rendered comma-separated parameter list of integer types `iW`. -/
def renderArgs : List Str → Str
  | [] => []
  | d :: t => 'i' :: (d ++ renderTail2 t)

/-- Every rendered width is a nonempty run of decimal digits. -/
def DigitsOK (ds : List Str) : Prop :=
  ∀ d ∈ ds, d ≠ [] ∧ ∀ c ∈ d, c.isDigit = true

/-! ## Generic facts about the ordered-choice combinator -/

theorem runAlts_all_fail {α : Type} :
    ∀ (l : List (P α)) (s : Str), (∀ p ∈ l, Fails p s) →
      runAlts l s = Except.error s := by
  intro l
  induction l with
  | nil => intro s _; rfl
  | cons p ps ih =>
    intro s h
    obtain ⟨e, he⟩ := h p (List.mem_cons_self p ps)
    simp only [runAlts, he]
    exact ih s fun q hq => h q (List.mem_cons_of_mem p hq)

theorem runAlts_append_fails {α : Type} :
    ∀ (l₁ l₂ : List (P α)) (s : Str), (∀ p ∈ l₁, Fails p s) →
      runAlts (l₁ ++ l₂) s = runAlts l₂ s := by
  intro l₁
  induction l₁ with
  | nil => intro l₂ s _; rfl
  | cons p ps ih =>
    intro l₂ s h
    obtain ⟨e, he⟩ := h p (List.mem_cons_self p ps)
    simp only [List.cons_append, runAlts, he]
    exact ih l₂ s fun q hq => h q (List.mem_cons_of_mem p hq)

theorem runAlts_fails_iff {α : Type} :
    ∀ (l : List (P α)) (s : Str),
      Fails (runAlts l) s ↔ ∀ p ∈ l, Fails p s := by
  intro l
  induction l with
  | nil =>
    intro s
    constructor
    · intro _ p hp; exact absurd hp (List.not_mem_nil p)
    · intro _; exact ⟨s, rfl⟩
  | cons p ps ih =>
    intro s
    constructor
    · intro ⟨e, he⟩ q hq
      rcases List.mem_cons.mp hq with hq | hq
      · subst hq
        cases hp : q s with
        | ok o => simp only [runAlts, hp] at he; exact absurd he (by simp)
        | error e2 => exact ⟨e2, hp⟩
      · apply (ih s).mp _ q hq
        cases hp : p s with
        | ok o => simp only [runAlts, hp] at he; exact absurd he (by simp)
        | error e2 => exact ⟨e, by simpa only [runAlts, hp] using he⟩
    · intro h
      obtain ⟨e, he⟩ := h p (List.mem_cons_self p ps)
      obtain ⟨e2, he2⟩ := (ih s).mpr fun q hq => h q (List.mem_cons_of_mem p hq)
      exact ⟨e2, by simp only [runAlts, he, he2]⟩

theorem runAlts_first_success {α : Type} :
    ∀ (l₁ : List (P α)) (p : P α) (l₂ : List (P α)) (s : Str),
      (∀ q ∈ l₁, Fails q s) → Succeeds p s →
      runAlts (l₁ ++ p :: l₂) s = p s := by
  intro l₁ p l₂ s h hs
  rw [runAlts_append_fails l₁ (p :: l₂) s h]
  obtain ⟨o, ho⟩ := hs
  simp only [runAlts, ho]

/-! ## Claims about the dispatcher -/

/-- C7: the dispatcher tries the recognizers in the fixed order comment,
source-filename, target, type-definition, global, alias,
function-definition, declare, attributes, metadata; it returns the result
of the first recognizer that succeeds on the input and fails exactly when
every recognizer fails. -/
theorem claim_C7_item_order (s : Str) :
    IrItem.recList =
      [IrItem.comment, IrItem.source_filename, IrItem.target, IrItem.type_,
       IrItem.global, IrItem.alias_, pmap Item.define Ir.defineParse,
       IrItem.declare, IrItem.attributes, IrItem.metadata] ∧
    (∀ l₁ p l₂, IrItem.recList = l₁ ++ p :: l₂ →
      (∀ q ∈ l₁, Fails q s) → Succeeds p s → IrItem.item s = p s) ∧
    (Fails IrItem.item s ↔ ∀ p ∈ IrItem.recList, Fails p s) := by
  refine ⟨rfl, ?_, ?_⟩
  · intro l₁ p l₂ hsplit h hs
    show runAlts IrItem.recList s = p s
    rw [hsplit]
    exact runAlts_first_success l₁ p l₂ s h hs
  · exact runAlts_fails_iff IrItem.recList s

theorem claim_C7_item_order_witness :
    IrItem.item ("; ModuleID".toList) = IrItem.comment ("; ModuleID".toList) :=
  (claim_C7_item_order ("; ModuleID".toList)).2.1 [] IrItem.comment
    [IrItem.source_filename, IrItem.target, IrItem.type_, IrItem.global,
     IrItem.alias_, pmap Item.define Ir.defineParse, IrItem.declare,
     IrItem.attributes, IrItem.metadata] rfl
    (fun q hq => absurd hq (List.not_mem_nil q))
    ⟨([], Item.comment), rfl⟩

/-- C6: when one alternative of the item dispatcher fails, the remaining
alternatives are applied to the exact same input position, and when all
alternatives fail the whole item parse fails without partially accepting
any construct, propagating the unconsumed input position. -/
theorem claim_C6_backtracking (s : Str) :
    (∀ l₁ l₂, IrItem.recList = l₁ ++ l₂ → (∀ p ∈ l₁, Fails p s) →
      IrItem.item s = runAlts l₂ s) ∧
    ((∀ p ∈ IrItem.recList, Fails p s) → IrItem.item s = Except.error s) := by
  constructor
  · intro l₁ l₂ hsplit h
    show runAlts IrItem.recList s = runAlts l₂ s
    rw [hsplit]
    exact runAlts_append_fails l₁ l₂ s h
  · intro h
    exact runAlts_all_fail IrItem.recList s h

theorem claim_C6_backtracking_witness :
    IrItem.item ("zzz".toList) = Except.error ("zzz".toList) :=
  (claim_C6_backtracking ("zzz".toList)).2 (by
    intro p hp
    simp only [IrItem.recList, List.mem_cons, List.not_mem_nil, or_false] at hp
    rcases hp with h | h | h | h | h | h | h | h | h | h <;> (subst h; exact ⟨_, rfl⟩))

/-- C8: parsing is deterministic — two applications of the item parser (or
of the declare recognizer) to the same input string yield the same result;
the embedded parsers are pure functions of the input with no hidden state. -/
theorem claim_C8_deterministic (s t : Str) (h : s = t) :
    IrItem.item s = IrItem.item t ∧ IrItem.declare s = IrItem.declare t :=
  ⟨congrArg IrItem.item h, congrArg IrItem.declare h⟩

theorem claim_C8_deterministic_witness :
    IrItem.item ("a".toList) = IrItem.item ("a".toList) ∧
    IrItem.declare ("a".toList) = IrItem.declare ("a".toList) :=
  claim_C8_deterministic ("a".toList) ("a".toList) rfl

/-- C9: on every finite input the item parser terminates, returning either
a success or a failure — it is a total function of the input. -/
theorem claim_C9_total (s : Str) :
    (∃ r v, IrItem.item s = Except.ok (r, v)) ∨
    (∃ e, IrItem.item s = Except.error e) := by
  cases h : IrItem.item s with
  | ok o => exact Or.inl ⟨o.1, o.2, rfl⟩
  | error e => exact Or.inr ⟨e, rfl⟩

/-! ## Claims about the declare recognizer (intrinsic branch) -/

/-- C1: whenever the common head of `declare` parses (yielding the symbol
name) and the name begins with the intrinsic prefix `llvm.`, the recognizer
skips to the end of the line and produces `Declare { name, sig: None }`,
regardless of the parameter-list text that follows. -/
theorem claim_C1_intrinsic_no_sig (s r : Str) (out : Option Ty) (n : Str)
    (hhead : IrItem.declareHead s = Except.ok (r, (out, n)))
    (hpre : (("llvm.".toList)).isPrefixOf n = true) :
    IrItem.declare s = Except.ok (eolSuffix r, Item.declare ⟨n, none⟩) := by
  simp only [IrItem.declare, pbind, hhead, hpre, if_true, pnotLineEnding,
    ptakeWhile, ppure, eolSuffix]

theorem claim_C1_intrinsic_no_sig_witness :
    IrItem.declareHead
        (("declare void @llvm.dbg.declare(metadata, metadata, metadata) #4".toList))
      = Except.ok (("metadata, metadata, metadata) #4".toList),
          (Option.none, ("llvm.dbg.declare".toList))) ∧
    IrItem.declare
        (("declare void @llvm.dbg.declare(metadata, metadata, metadata) #4".toList))
      = Except.ok ([], Item.declare ⟨("llvm.dbg.declare".toList), none⟩) :=
  ⟨rfl,
   claim_C1_intrinsic_no_sig
     (("declare void @llvm.dbg.declare(metadata, metadata, metadata) #4".toList))
     (("metadata, metadata, metadata) #4".toList))
     Option.none (("llvm.dbg.declare".toList)) rfl rfl⟩

/-! ## Claims about the type-definition recognizer -/

/-- C3 counterexample: `%Foo = global i32 0` has the shape `%Name = X...`
with `X = global`, not the `type` keyword, yet both the Type recognizer
and the full dispatcher classify it as a type definition — the claim that
the recognizer strictly validates the `type` keyword is false on the code. -/
theorem claim_C3_counterexample :
    IrItem.type_ (("%Foo = global i32 0".toList)) = Except.ok ([], Item.type) ∧
    IrItem.item (("%Foo = global i32 0".toList)) = Except.ok ([], Item.type) :=
  ⟨rfl, rfl⟩

/-- C3 (amended): the Type recognizer validates only the `%Name = ` prefix
(a `%`-sigil name, a separator, `=`) and then discards the remainder of the
line without checking anything further; in particular it succeeds whatever
text — `type` keyword or not — follows the `=`. -/
theorem claim_C3_type_shortcut (s r1 r2 r3 : Str) (n w : Str)
    (h1 : Ir.alias_ s = Except.ok (r1, n))
    (h2 : pspace r1 = Except.ok (r2, w))
    (h3 : pchar '=' r2 = Except.ok (r3, ())) :
    IrItem.type_ s = Except.ok (eolSuffix r3, Item.type) := by
  simp only [IrItem.type_, pbind, h1, h2, h3, pnotLineEnding, ptakeWhile,
    ppure, eolSuffix]

theorem claim_C3_type_shortcut_witness :
    IrItem.type_ (("%Bar = constant junk".toList)) = Except.ok ([], Item.type) :=
  claim_C3_type_shortcut (("%Bar = constant junk".toList))
    ((" = constant junk".toList)) (("= constant junk".toList))
    ((" constant junk".toList)) (("Bar".toList)) ((" ".toList)) rfl rfl rfl

/-! ## Claims about the alias recognizer -/

/-- C5: for every well-formed alias input — name, `=`, attributes, the
`alias` keyword, a type, `,`, a type, and the target name — the recognizer
returns `Alias` carrying exactly the new symbol's name and the target's
name; the two type operands are parsed (hypotheses `h8`, `h12`) but do not
appear in the result.  In particular the repository's example input yields
`Alias("__pre_init", "DefaultPreInit")`. -/
theorem claim_C5_alias_extracts_names :
    (∀ (s r1 r2 r3 r4 r5 r6 r7 r8 r9 r10 r11 r12 r13 r14 : Str)
       (n w1 w2 : Str) (a5 : List Unit) (w3 : Str) (ty1 : Ty) (w4 : Str)
       (w5 : Str) (ty2 : Ty) (w6 : Str) (tgt : Str),
      Ir.function s = Except.ok (r1, n) →
      pspace r1 = Except.ok (r2, w1) →
      pchar '=' r2 = Except.ok (r3, ()) →
      pspace r3 = Except.ok (r4, w2) →
      IrItem.attrs0 r4 = Except.ok (r5, a5) →
      ptag (("alias".toList)) r5 = Except.ok (r6, ()) →
      pspace r6 = Except.ok (r7, w3) →
      Ir.type_ r7 = Except.ok (r8, ty1) →
      pspace0 r8 = Except.ok (r9, w4) →
      pchar ',' r9 = Except.ok (r10, ()) →
      pspace r10 = Except.ok (r11, w5) →
      Ir.type_ r11 = Except.ok (r12, ty2) →
      pspace r12 = Except.ok (r13, w6) →
      Ir.function r13 = Except.ok (r14, tgt) →
      IrItem.alias_ s = Except.ok (r14, Item.alias n tgt)) ∧
    IrItem.alias_
        (("@__pre_init = unnamed_addr alias void (), void ()* @DefaultPreInit".toList)) =
      Except.ok ([], Item.alias (("__pre_init".toList)) (("DefaultPreInit".toList))) := by
  constructor
  · intro s r1 r2 r3 r4 r5 r6 r7 r8 r9 r10 r11 r12 r13 r14 n w1 w2 a5 w3 ty1
      w4 w5 ty2 w6 tgt h1 h2 h3 h4 h5 h6 h7 h8 h9 h10 h11 h12 h13 h14
    simp only [IrItem.alias_, pbind, h1, h2, h3, h4, h5, h6, h7, h8, h9, h10,
      h11, h12, h13, h14, ppure]
  · rfl

theorem claim_C5_alias_extracts_names_witness :
    IrItem.alias_ (("@x = alias i32, i32* @y".toList)) =
      Except.ok ([], Item.alias (("x".toList)) (("y".toList))) :=
  claim_C5_alias_extracts_names.1
    (("@x = alias i32, i32* @y".toList))
    ((" = alias i32, i32* @y".toList))
    (("= alias i32, i32* @y".toList))
    ((" alias i32, i32* @y".toList))
    (("alias i32, i32* @y".toList))
    (("alias i32, i32* @y".toList))
    ((" i32, i32* @y".toList))
    (("i32, i32* @y".toList))
    ((", i32* @y".toList))
    ((", i32* @y".toList))
    ((" i32* @y".toList))
    (("i32* @y".toList))
    ((" @y".toList))
    (("@y".toList))
    ([])
    (("x".toList)) ((" ".toList)) ((" ".toList)) ([]) ((" ".toList))
    (Ty.integer 32) ([]) ((" ".toList)) (Ty.pointer (Ty.integer 32))
    ((" ".toList)) (("y".toList))
    rfl rfl rfl rfl rfl rfl rfl rfl rfl rfl rfl rfl rfl rfl

/-! ## Claims about dispatching `@Name = <attrs>` inputs -/

theorem pchar_ok_cons {c : Char} {s r : Str} {v : Unit}
    (h : pchar c s = Except.ok (r, v)) : s = c :: r := by
  cases s with
  | nil => simp only [pchar] at h; cases h
  | cons d t =>
    simp only [pchar] at h
    by_cases hd : d = c
    · rw [if_pos hd] at h
      cases h
      rw [hd]
    · rw [if_neg hd] at h
      cases h

/-- C4: for every input with the shared prefix `@Name = <attributes>`, the
dispatcher classifies it as Global when the next keyword is `global` or
`constant` (and a separator follows), and as Alias carrying the new and
target names when the keyword alternative fails and the `alias` grammar
matches — never the wrong one of the two variants. -/
theorem claim_C4_global_vs_alias (s r1 r2 r3 r4 r5 : Str) (n w1 w2 : Str)
    (a5 : List Unit)
    (h1 : Ir.global s = Except.ok (r1, n))
    (h2 : pspace r1 = Except.ok (r2, w1))
    (h3 : pchar '=' r2 = Except.ok (r3, ()))
    (h4 : pspace r3 = Except.ok (r4, w2))
    (h5 : IrItem.attrs0 r4 = Except.ok (r5, a5)) :
    (∀ r6 r7 w3,
      palt (ptag (("global".toList))) (ptag (("constant".toList))) r5 =
        Except.ok (r6, ()) →
      pspace r6 = Except.ok (r7, w3) →
      IrItem.item s = Except.ok (eolSuffix r7, Item.global)) ∧
    (Fails (palt (ptag (("global".toList))) (ptag (("constant".toList)))) r5 →
      ∀ r6 r7 r8 r9 r10 r11 r12 r13 r14 w3 ty1 w4 w5 ty2 w6 tgt,
      ptag (("alias".toList)) r5 = Except.ok (r6, ()) →
      pspace r6 = Except.ok (r7, w3) →
      Ir.type_ r7 = Except.ok (r8, ty1) →
      pspace0 r8 = Except.ok (r9, w4) →
      pchar ',' r9 = Except.ok (r10, ()) →
      pspace r10 = Except.ok (r11, w5) →
      Ir.type_ r11 = Except.ok (r12, ty2) →
      pspace r12 = Except.ok (r13, w6) →
      Ir.function r13 = Except.ok (r14, tgt) →
      IrItem.item s = Except.ok (r14, Item.alias n tgt)) := by
  obtain ⟨t, hts⟩ : ∃ t, s = '@' :: t := by
    have h1c := h1
    simp only [Ir.global, Ir.function, pbind] at h1c
    cases hc : pchar '@' s with
    | error e => rw [hc] at h1c; cases h1c
    | ok o =>
      exact ⟨o.1, pchar_ok_cons (v := o.2) (by rw [hc])⟩
  subst hts
  have hfails4 : ∀ p ∈ [IrItem.comment, IrItem.source_filename, IrItem.target,
      IrItem.type_], Fails p ('@' :: t) := by
    intro p hp
    simp only [List.mem_cons, List.not_mem_nil, or_false] at hp
    rcases hp with h | h | h | h <;> (subst h; exact ⟨_, rfl⟩)
  constructor
  · intro r6 r7 w3 hkw hsp
    have hglobal : IrItem.global ('@' :: t) =
        Except.ok (eolSuffix r7, Item.global) := by
      simp only [IrItem.global, pbind, h1, h2, h3, h4, h5, hkw, hsp,
        pnotLineEnding, ptakeWhile, ppure, eolSuffix]
    show runAlts IrItem.recList ('@' :: t) = _
    rw [show IrItem.recList =
      [IrItem.comment, IrItem.source_filename, IrItem.target, IrItem.type_] ++
      (IrItem.global :: [IrItem.alias_, pmap Item.define Ir.defineParse,
        IrItem.declare, IrItem.attributes, IrItem.metadata]) from rfl]
    rw [runAlts_append_fails _ _ _ hfails4]
    simp only [runAlts, hglobal]
  · intro hkwf r6 r7 r8 r9 r10 r11 r12 r13 r14 w3 ty1 w4 w5 ty2 w6 tgt
      hb1 hb2 hb3 hb4 hb5 hb6 hb7 hb8 hb9
    obtain ⟨e, he⟩ := hkwf
    have hglobalf : IrItem.global ('@' :: t) = Except.error e := by
      simp only [IrItem.global, pbind, h1, h2, h3, h4, h5, he]
    have h1f : Ir.function ('@' :: t) = Except.ok (r1, n) := h1
    have halias : IrItem.alias_ ('@' :: t) =
        Except.ok (r14, Item.alias n tgt) := by
      simp only [IrItem.alias_, pbind, h1f, h2, h3, h4, h5, hb1, hb2, hb3,
        hb4, hb5, hb6, hb7, hb8, hb9, ppure]
    have hfails5 : ∀ p ∈ [IrItem.comment, IrItem.source_filename, IrItem.target,
        IrItem.type_, IrItem.global], Fails p ('@' :: t) := by
      intro p hp
      simp only [List.mem_cons, List.not_mem_nil, or_false] at hp
      rcases hp with h | h | h | h | h
      · subst h; exact ⟨_, rfl⟩
      · subst h; exact ⟨_, rfl⟩
      · subst h; exact ⟨_, rfl⟩
      · subst h; exact ⟨_, rfl⟩
      · subst h; exact ⟨e, hglobalf⟩
    show runAlts IrItem.recList ('@' :: t) = _
    rw [show IrItem.recList =
      [IrItem.comment, IrItem.source_filename, IrItem.target, IrItem.type_,
       IrItem.global] ++
      (IrItem.alias_ :: [pmap Item.define Ir.defineParse, IrItem.declare,
        IrItem.attributes, IrItem.metadata]) from rfl]
    rw [runAlts_append_fails _ _ _ hfails5]
    simp only [runAlts, halias]

theorem claim_C4_global_vs_alias_witness :
    IrItem.item (("@__sbss = external global i32".toList)) =
      Except.ok ([], Item.global) ∧
    IrItem.item
        (("@__pre_init = unnamed_addr alias void (), void ()* @DefaultPreInit".toList)) =
      Except.ok ([], Item.alias (("__pre_init".toList)) (("DefaultPreInit".toList))) := by
  constructor
  · exact (claim_C4_global_vs_alias
      (("@__sbss = external global i32".toList))
      ((" = external global i32".toList))
      (("= external global i32".toList))
      ((" external global i32".toList))
      (("external global i32".toList))
      (("global i32".toList))
      (("__sbss".toList)) ((" ".toList)) ((" ".toList)) ([()])
      rfl rfl rfl rfl rfl).1
      ((" i32".toList)) (("i32".toList)) ((" ".toList)) rfl rfl
  · exact (claim_C4_global_vs_alias
      (("@__pre_init = unnamed_addr alias void (), void ()* @DefaultPreInit".toList))
      ((" = unnamed_addr alias void (), void ()* @DefaultPreInit".toList))
      (("= unnamed_addr alias void (), void ()* @DefaultPreInit".toList))
      ((" unnamed_addr alias void (), void ()* @DefaultPreInit".toList))
      (("unnamed_addr alias void (), void ()* @DefaultPreInit".toList))
      (("alias void (), void ()* @DefaultPreInit".toList))
      (("__pre_init".toList)) ((" ".toList)) ((" ".toList)) ([()])
      rfl rfl rfl rfl rfl).2
      ⟨(("alias void (), void ()* @DefaultPreInit".toList)), rfl⟩
      ((" void (), void ()* @DefaultPreInit".toList))
      (("void (), void ()* @DefaultPreInit".toList))
      ((", void ()* @DefaultPreInit".toList))
      ((", void ()* @DefaultPreInit".toList))
      ((" void ()* @DefaultPreInit".toList))
      (("void ()* @DefaultPreInit".toList))
      ((" @DefaultPreInit".toList))
      (("@DefaultPreInit".toList))
      ([])
      ((" ".toList)) (Ty.fn none []) ([]) ((" ".toList))
      (Ty.pointer (Ty.fn none [])) ((" ".toList)) (("DefaultPreInit".toList))
      rfl rfl rfl rfl rfl rfl rfl rfl rfl

/-! ## Line discipline: what a successful single-line recognizer leaves -/

theorem eolSuffix_append_noeol : ∀ (a r : Str), (∀ c ∈ a, isEol c = false) →
    eolSuffix (a ++ r) = eolSuffix r := by
  intro a
  induction a with
  | nil => intro r _; rfl
  | cons c a ih =>
    intro r h
    have hc : isEol c = false := h c (List.mem_cons_self c a)
    simp only [List.cons_append, eolSuffix, List.dropWhile_cons, hc,
      Bool.not_false, if_true]
    exact ih r fun d hd => h d (List.mem_cons_of_mem c hd)

theorem noeol_ppure {α : Type} (a : α) : NoEolConsumed (ppure a) := by
  intro s r v h
  simp only [ppure] at h
  cases h
  exact ⟨[], rfl, fun c hc => absurd hc (List.not_mem_nil c)⟩

theorem noeol_pfail {α : Type} : NoEolConsumed (pfail (α := α)) := by
  intro s r v h
  simp only [pfail] at h
  cases h

theorem noeol_pbind {α β : Type} {p : P α} {f : α → P β}
    (hp : NoEolConsumed p) (hf : ∀ a, NoEolConsumed (f a)) :
    NoEolConsumed (pbind p f) := by
  intro s r v h
  simp only [pbind] at h
  cases hps : p s with
  | error e => rw [hps] at h; cases h
  | ok o =>
    obtain ⟨r1, a⟩ := o
    rw [hps] at h
    obtain ⟨a1, ha1, hn1⟩ := hp s r1 a hps
    obtain ⟨a2, ha2, hn2⟩ := hf a r1 r v h
    refine ⟨a1 ++ a2, ?_, ?_⟩
    · rw [ha1, ha2, List.append_assoc]
    · intro c hc
      rcases List.mem_append.mp hc with h2 | h2
      · exact hn1 c h2
      · exact hn2 c h2

theorem noeol_palt {α : Type} {p q : P α}
    (hp : NoEolConsumed p) (hq : NoEolConsumed q) :
    NoEolConsumed (palt p q) := by
  intro s r v h
  simp only [palt] at h
  cases hps : p s with
  | ok o =>
    rw [hps] at h
    cases h
    exact hp s r v hps
  | error e =>
    rw [hps] at h
    exact hq s r v h

theorem noeol_pmap {α β : Type} {p : P α} (f : α → β)
    (hp : NoEolConsumed p) : NoEolConsumed (pmap f p) :=
  noeol_pbind hp fun a => noeol_ppure (f a)

theorem noeol_ptag {t : Str} (ht : ∀ c ∈ t, isEol c = false) :
    NoEolConsumed (ptag t) := by
  intro s r v h
  simp only [ptag] at h
  by_cases hp : t.isPrefixOf s
  · rw [if_pos hp] at h
    cases h
    obtain ⟨u, hu⟩ := List.isPrefixOf_iff_prefix.mp hp
    refine ⟨t, ?_, ht⟩
    rw [← hu, List.drop_left]
  · rw [if_neg hp] at h
    cases h

theorem noeol_pchar {c : Char} (hc : isEol c = false) :
    NoEolConsumed (pchar c) := by
  intro s r v h
  refine ⟨[c], pchar_ok_cons h, ?_⟩
  intro d hd
  rcases List.mem_singleton.mp hd with h2
  rw [h2]; exact hc

theorem noeol_ptakeWhile {f : Char → Bool}
    (hf : ∀ c, f c = true → isEol c = false) :
    NoEolConsumed (ptakeWhile f) := by
  intro s r v h
  simp only [ptakeWhile] at h
  cases h
  exact ⟨s.takeWhile f, (List.takeWhile_append_dropWhile f s).symm,
    fun c hc => hf c (List.mem_takeWhile_imp hc)⟩

theorem noeol_ptakeWhile1 {f : Char → Bool}
    (hf : ∀ c, f c = true → isEol c = false) :
    NoEolConsumed (ptakeWhile1 f) := by
  intro s r v h
  simp only [ptakeWhile1] at h
  by_cases he : (s.takeWhile f).isEmpty
  · rw [if_pos he] at h; cases h
  · rw [if_neg he] at h
    cases h
    exact ⟨s.takeWhile f, (List.takeWhile_append_dropWhile f s).symm,
      fun c hc => hf c (List.mem_takeWhile_imp hc)⟩

theorem not_eol_of_false_on_eol {f : Char → Bool} (h1 : f '\n' = false)
    (h2 : f '\r' = false) : ∀ c, f c = true → isEol c = false := by
  intro c h
  cases he : isEol c
  · rfl
  · exfalso
    simp only [isEol, Bool.or_eq_true, beq_iff_eq] at he
    rcases he with h3 | h3
    · subst h3; rw [h1] at h; cases h
    · subst h3; rw [h2] at h; cases h

theorem noeol_pspace : NoEolConsumed pspace :=
  noeol_ptakeWhile1 (not_eol_of_false_on_eol (by decide) (by decide))

theorem noeol_pspace0 : NoEolConsumed pspace0 :=
  noeol_ptakeWhile (not_eol_of_false_on_eol (by decide) (by decide))

theorem noeol_pmany0Go {α : Type} {p : P α} (hp : NoEolConsumed p) :
    ∀ (fuel : Nat) (s r : Str) (v : List α),
      pmany0Go p fuel s = Except.ok (r, v) →
      ∃ a, s = a ++ r ∧ ∀ c ∈ a, isEol c = false := by
  intro fuel
  induction fuel with
  | zero => intro s r v h; simp only [pmany0Go] at h; cases h
  | succ n ih =>
    intro s r v h
    simp only [pmany0Go] at h
    cases hps : p s with
    | error e =>
      rw [hps] at h
      cases h
      exact ⟨[], rfl, fun c hc => absurd hc (List.not_mem_nil c)⟩
    | ok o =>
      obtain ⟨r1, a⟩ := o
      rw [hps] at h
      dsimp only at h
      by_cases hrs : r1 = s
      · rw [if_pos hrs] at h; cases h
      · rw [if_neg hrs] at h
        cases hgo : pmany0Go p n r1 with
        | error e => rw [hgo] at h; cases h
        | ok o2 =>
          obtain ⟨r2, vs⟩ := o2
          rw [hgo] at h
          cases h
          obtain ⟨a1, ha1, hn1⟩ := hp s r1 a hps
          obtain ⟨a2, ha2, hn2⟩ := ih r1 r vs hgo
          refine ⟨a1 ++ a2, ?_, ?_⟩
          · rw [ha1, ha2, List.append_assoc]
          · intro c hc
            rcases List.mem_append.mp hc with h2 | h2
            · exact hn1 c h2
            · exact hn2 c h2

theorem noeol_pmany0 {α : Type} {p : P α} (hp : NoEolConsumed p) :
    NoEolConsumed (pmany0 p) := by
  intro s r v h
  exact noeol_pmany0Go hp (s.length + 1) s r v h

theorem noeol_psepListGo {α β : Type} {sep : P β} {p : P α}
    (hsep : NoEolConsumed sep) (hp : NoEolConsumed p) :
    ∀ (fuel : Nat) (s r : Str) (v : List α),
      psepListGo sep p fuel s = Except.ok (r, v) →
      ∃ a, s = a ++ r ∧ ∀ c ∈ a, isEol c = false := by
  intro fuel
  induction fuel with
  | zero => intro s r v h; simp only [psepListGo] at h; cases h
  | succ n ih =>
    intro s r v h
    simp only [psepListGo] at h
    cases hss : sep s with
    | error e =>
      rw [hss] at h
      cases h
      exact ⟨[], rfl, fun c hc => absurd hc (List.not_mem_nil c)⟩
    | ok o =>
      obtain ⟨r1, b⟩ := o
      rw [hss] at h
      dsimp only at h
      by_cases hrs : r1 = s
      · rw [if_pos hrs] at h; cases h
      · rw [if_neg hrs] at h
        cases hps : p r1 with
        | error e =>
          rw [hps] at h
          cases h
          exact ⟨[], rfl, fun c hc => absurd hc (List.not_mem_nil c)⟩
        | ok o2 =>
          obtain ⟨r2, a⟩ := o2
          rw [hps] at h
          dsimp only at h
          cases hgo : psepListGo sep p n r2 with
          | error e => rw [hgo] at h; cases h
          | ok o3 =>
            obtain ⟨r3, vs⟩ := o3
            rw [hgo] at h
            cases h
            obtain ⟨a1, ha1, hn1⟩ := hsep s r1 b hss
            obtain ⟨a2, ha2, hn2⟩ := hp r1 r2 a hps
            obtain ⟨a3, ha3, hn3⟩ := ih r2 r vs hgo
            refine ⟨a1 ++ (a2 ++ a3), ?_, ?_⟩
            · rw [ha1, ha2, ha3, List.append_assoc, List.append_assoc]
            · intro c hc
              rcases List.mem_append.mp hc with h2 | h2
              · exact hn1 c h2
              · rcases List.mem_append.mp h2 with h3 | h3
                · exact hn2 c h3
                · exact hn3 c h3

theorem noeol_psepList {α β : Type} {sep : P β} {p : P α}
    (hsep : NoEolConsumed sep) (hp : NoEolConsumed p) :
    NoEolConsumed (psepList sep p) := by
  intro s r v h
  simp only [psepList] at h
  cases hps : p s with
  | error e =>
    rw [hps] at h
    cases h
    exact ⟨[], rfl, fun c hc => absurd hc (List.not_mem_nil c)⟩
  | ok o =>
    obtain ⟨r1, a⟩ := o
    rw [hps] at h
    dsimp only at h
    cases hgo : psepListGo sep p (r1.length + 1) r1 with
    | error e => rw [hgo] at h; cases h
    | ok o2 =>
      obtain ⟨r2, vs⟩ := o2
      rw [hgo] at h
      cases h
      obtain ⟨a1, ha1, hn1⟩ := hp s r1 a hps
      obtain ⟨a2, ha2, hn2⟩ := noeol_psepListGo hsep hp (r1.length + 1) r1 r vs hgo
      refine ⟨a1 ++ a2, ?_, ?_⟩
      · rw [ha1, ha2, List.append_assoc]
      · intro c hc
        rcases List.mem_append.mp hc with h2 | h2
        · exact hn1 c h2
        · exact hn2 c h2

theorem noeol_nameP : NoEolConsumed Ir.nameP := by
  unfold Ir.nameP
  apply noeol_palt
  · apply noeol_pbind (noeol_pchar (by decide))
    intro _
    apply noeol_pbind (noeol_ptakeWhile (not_eol_of_false_on_eol (by decide) (by decide)))
    intro n
    apply noeol_pbind (noeol_pchar (by decide))
    intro _
    exact noeol_ppure n
  · exact noeol_ptakeWhile1 (not_eol_of_false_on_eol (by decide) (by decide))

theorem noeol_function : NoEolConsumed Ir.function := by
  unfold Ir.function
  exact noeol_pbind (noeol_pchar (by decide)) fun _ => noeol_nameP

theorem noeol_globalName : NoEolConsumed Ir.global := noeol_function

theorem noeol_aliasName : NoEolConsumed Ir.alias_ := by
  unfold Ir.alias_
  exact noeol_pbind (noeol_pchar (by decide)) fun _ => noeol_nameP

theorem noeol_attr : NoEolConsumed Ir.attr := by
  unfold Ir.attr
  apply noeol_palt
  · apply noeol_pbind (noeol_pchar (by decide))
    intro _
    apply noeol_pbind (noeol_ptakeWhile (not_eol_of_false_on_eol (by decide) (by decide)))
    intro _
    apply noeol_pbind (noeol_pchar (by decide))
    intro _
    apply noeol_palt
    · apply noeol_pbind (noeol_pchar (by decide))
      intro _
      apply noeol_pbind (noeol_pchar (by decide))
      intro _
      apply noeol_pbind (noeol_ptakeWhile (not_eol_of_false_on_eol (by decide) (by decide)))
      intro _
      apply noeol_pbind (noeol_pchar (by decide))
      intro _
      exact noeol_ppure ()
    · exact noeol_ppure ()
  · apply noeol_pbind (noeol_ptakeWhile1 (not_eol_of_false_on_eol (by decide) (by decide)))
    intro tok
    by_cases h : Ir.reservedWords.contains tok || Ir.isIntTok tok
    · rw [if_pos h]; exact noeol_pfail
    · rw [if_neg h]; exact noeol_ppure ()

theorem noeol_attrs0 : NoEolConsumed IrItem.attrs0 := by
  unfold IrItem.attrs0
  apply noeol_pmany0
  exact noeol_pbind noeol_attr fun _ =>
    noeol_pbind noeol_pspace fun _ => noeol_ppure ()

theorem noeol_starsP (t : Ty) : NoEolConsumed (Ir.starsP t) := by
  unfold Ir.starsP
  exact noeol_pbind (noeol_pmany0 (noeol_pchar (by decide))) fun st =>
    noeol_ppure _

theorem noeol_headTy : NoEolConsumed Ir.headTy := by
  unfold Ir.headTy
  apply noeol_palt
  · exact noeol_pbind (noeol_ptag (by decide)) fun _ => noeol_ppure _
  · apply noeol_pbind _ fun t => noeol_ppure _
    unfold Ir.baseTy
    apply noeol_palt
    · unfold Ir.intTy
      apply noeol_pbind (noeol_pchar (by decide))
      intro _
      apply noeol_pbind (noeol_ptakeWhile1 (not_eol_of_false_on_eol (by decide) (by decide)))
      intro ds
      exact noeol_ppure _
    · unfold Ir.namedTy
      apply noeol_pbind (noeol_pchar (by decide))
      intro _
      exact noeol_pbind noeol_nameP fun n => noeol_ppure _

theorem noeol_tySep : NoEolConsumed Ir.tySep := by
  unfold Ir.tySep
  exact noeol_pbind (noeol_pchar (by decide)) fun _ =>
    noeol_pbind noeol_pspace0 fun _ => noeol_ppure ()

theorem noeol_parseTy : ∀ fuel, NoEolConsumed (Ir.parseTy fuel) := by
  intro fuel
  induction fuel with
  | zero => simp only [Ir.parseTy]; exact noeol_pfail
  | succ n ih =>
    simp only [Ir.parseTy]
    apply noeol_pbind noeol_headTy
    intro h
    apply noeol_palt
    · apply noeol_pbind noeol_pspace0
      intro _
      apply noeol_pbind (noeol_pchar (by decide))
      intro _
      apply noeol_pbind (noeol_psepList noeol_tySep ih)
      intro args
      apply noeol_pbind noeol_pspace0
      intro _
      apply noeol_pbind (noeol_pchar (by decide))
      intro _
      exact noeol_starsP _
    · cases h with
      | some t => exact noeol_starsP t
      | none => exact noeol_pfail

theorem noeol_type_ : NoEolConsumed Ir.type_ := by
  intro s r v h
  exact noeol_parseTy (s.length + 1) s r v h

theorem noeol_declareHead : NoEolConsumed IrItem.declareHead := by
  unfold IrItem.declareHead
  apply noeol_pbind (noeol_ptag (by decide))
  intro _
  apply noeol_pbind noeol_pspace
  intro _
  apply noeol_pbind noeol_attrs0
  intro _
  apply noeol_pbind (noeol_palt (noeol_pmap _ noeol_type_)
    (noeol_pmap _ (noeol_ptag (by decide))))
  intro output
  apply noeol_pbind noeol_pspace
  intro _
  apply noeol_pbind noeol_function
  intro name
  apply noeol_pbind (noeol_pchar (by decide))
  intro _
  exact noeol_ppure _

theorem noeol_paramP : NoEolConsumed IrItem.paramP := by
  unfold IrItem.paramP
  apply noeol_pbind noeol_type_
  intro ty
  apply noeol_pbind (noeol_pmany0 (noeol_pbind noeol_pspace fun _ =>
    noeol_pbind noeol_attr fun _ => noeol_ppure ()))
  intro _
  exact noeol_ppure ty

theorem noeol_sepP : NoEolConsumed IrItem.sepP := by
  unfold IrItem.sepP
  exact noeol_pbind (noeol_pchar (by decide)) fun _ =>
    noeol_pbind noeol_pspace fun _ => noeol_ppure ()

/-! ## `EndsAtEol` for the line-shortcut recognizers -/

theorem endsAt_base {α : Type} (v : α) :
    EndsAtEol (pbind pnotLineEnding fun _ => ppure v) := by
  intro s r v2 h
  simp only [pbind, pnotLineEnding, ptakeWhile, ppure] at h
  cases h
  rfl

theorem endsAt_pbind {α β : Type} {p : P α} {f : α → P β}
    (hp : NoEolConsumed p) (hf : ∀ a, EndsAtEol (f a)) :
    EndsAtEol (pbind p f) := by
  intro s r v h
  simp only [pbind] at h
  cases hps : p s with
  | error e => rw [hps] at h; cases h
  | ok o =>
    obtain ⟨r1, a⟩ := o
    rw [hps] at h
    obtain ⟨a1, ha1, hn1⟩ := hp s r1 a hps
    have h2 := hf a r1 r v h
    rw [h2, ha1]
    exact (eolSuffix_append_noeol a1 r1 hn1).symm

theorem endsAt_pbind_ppure {α β : Type} {p : P α} (hp : EndsAtEol p)
    (g : α → β) : EndsAtEol (pbind p fun a => ppure (g a)) := by
  intro s r v h
  simp only [pbind] at h
  cases hps : p s with
  | error e => rw [hps] at h; cases h
  | ok o =>
    obtain ⟨r1, a⟩ := o
    rw [hps] at h
    simp only [ppure] at h
    cases h
    exact hp s r a hps

theorem endsAt_comment : EndsAtEol IrItem.comment := by
  unfold IrItem.comment pmap
  apply endsAt_pbind_ppure
  unfold Ir.comment
  exact endsAt_pbind (noeol_pchar (by decide)) fun _ => endsAt_base ()

theorem endsAt_source_filename : EndsAtEol IrItem.source_filename := by
  unfold IrItem.source_filename
  apply endsAt_pbind (noeol_ptag (by decide))
  intro _
  apply endsAt_pbind noeol_pspace
  intro _
  apply endsAt_pbind (noeol_pchar (by decide))
  intro _
  exact endsAt_base _

theorem endsAt_target : EndsAtEol IrItem.target := by
  unfold IrItem.target
  apply endsAt_pbind (noeol_ptag (by decide))
  intro _
  apply endsAt_pbind noeol_pspace
  intro _
  apply endsAt_pbind (noeol_palt (noeol_ptag (by decide)) (noeol_ptag (by decide)))
  intro _
  apply endsAt_pbind noeol_pspace
  intro _
  apply endsAt_pbind (noeol_pchar (by decide))
  intro _
  exact endsAt_base _

theorem endsAt_type_ : EndsAtEol IrItem.type_ := by
  unfold IrItem.type_
  apply endsAt_pbind noeol_aliasName
  intro _
  apply endsAt_pbind noeol_pspace
  intro _
  apply endsAt_pbind (noeol_pchar (by decide))
  intro _
  exact endsAt_base _

theorem endsAt_global : EndsAtEol IrItem.global := by
  unfold IrItem.global
  apply endsAt_pbind noeol_globalName
  intro _
  apply endsAt_pbind noeol_pspace
  intro _
  apply endsAt_pbind (noeol_pchar (by decide))
  intro _
  apply endsAt_pbind noeol_pspace
  intro _
  apply endsAt_pbind noeol_attrs0
  intro _
  apply endsAt_pbind (noeol_palt (noeol_ptag (by decide)) (noeol_ptag (by decide)))
  intro _
  apply endsAt_pbind noeol_pspace
  intro _
  exact endsAt_base _

theorem endsAt_declare : EndsAtEol IrItem.declare := by
  unfold IrItem.declare
  apply endsAt_pbind noeol_declareHead
  intro hn
  by_cases h : (("llvm.".toList)).isPrefixOf hn.2
  · rw [if_pos h]
    exact endsAt_base _
  · rw [if_neg h]
    apply endsAt_pbind (noeol_psepList noeol_sepP noeol_paramP)
    intro inputs
    apply endsAt_pbind (noeol_pchar (by decide))
    intro _
    exact endsAt_base _

theorem endsAt_attributes : EndsAtEol IrItem.attributes := by
  unfold IrItem.attributes
  apply endsAt_pbind (noeol_ptag (by decide))
  intro _
  apply endsAt_pbind noeol_pspace
  intro _
  apply endsAt_pbind (noeol_pchar (by decide))
  intro _
  exact endsAt_base _

theorem endsAt_metadata : EndsAtEol IrItem.metadata := by
  unfold IrItem.metadata
  apply endsAt_pbind (noeol_ptag (by decide))
  intro _
  exact endsAt_base _

/-- C10 counterexample: the alias recognizer is in the claim's list, but on
success it stops right after the target symbol name — here it accepts
`@a = alias i8, i8* @b x\ny` leaving the same-line text ` x` in the
remainder, which is not the suffix starting at the first end-of-line
character. -/
theorem claim_C10_counterexample :
    IrItem.alias_ (("@a = alias i8, i8* @b x\ny".toList)) =
      Except.ok (((" x\ny".toList)), Item.alias (("a".toList)) (("b".toList))) ∧
    (" x\ny".toList) ≠ eolSuffix (("@a = alias i8, i8* @b x\ny".toList)) :=
  ⟨rfl, by decide⟩

/-- C10 (amended): every single-line recognizer that ends in the
discard-to-end-of-line shortcut — comment, source-filename, target, type,
global, declare (both branches), attributes, metadata — leaves on success
exactly the suffix of its input starting at the first end-of-line
character (empty when the construct ends the input); the alias recognizer
is the one exception: it stops right after the target name and may leave
same-line trailing text unconsumed. -/
theorem claim_C10_shortcut_remainder (s r : Str) (v : Item) :
    (IrItem.comment s = Except.ok (r, v) → r = eolSuffix s) ∧
    (IrItem.source_filename s = Except.ok (r, v) → r = eolSuffix s) ∧
    (IrItem.target s = Except.ok (r, v) → r = eolSuffix s) ∧
    (IrItem.type_ s = Except.ok (r, v) → r = eolSuffix s) ∧
    (IrItem.global s = Except.ok (r, v) → r = eolSuffix s) ∧
    (IrItem.declare s = Except.ok (r, v) → r = eolSuffix s) ∧
    (IrItem.attributes s = Except.ok (r, v) → r = eolSuffix s) ∧
    (IrItem.metadata s = Except.ok (r, v) → r = eolSuffix s) :=
  ⟨fun h => endsAt_comment s r v h,
   fun h => endsAt_source_filename s r v h,
   fun h => endsAt_target s r v h,
   fun h => endsAt_type_ s r v h,
   fun h => endsAt_global s r v h,
   fun h => endsAt_declare s r v h,
   fun h => endsAt_attributes s r v h,
   fun h => endsAt_metadata s r v h⟩

theorem claim_C10_shortcut_remainder_witness :
    ("\nnext".toList) = eolSuffix (("; a comment\nnext".toList)) :=
  (claim_C10_shortcut_remainder (("; a comment\nnext".toList))
    (("\nnext".toList)) Item.comment).1 rfl


/-! ## Evaluation of rendered integer parameter lists (for C2) -/

theorem takeWhile_all_append {f : Char → Bool} :
    ∀ (a : Str) (c : Char) (t : Str), (∀ d ∈ a, f d = true) → f c = false →
      (a ++ c :: t).takeWhile f = a ∧ (a ++ c :: t).dropWhile f = c :: t := by
  intro a
  induction a with
  | nil =>
    intro c t _ hc
    constructor
    · simp [List.takeWhile_cons, hc]
    · simp [List.dropWhile_cons, hc]
  | cons d a ih =>
    intro c t h hc
    have hd : f d = true := h d (List.mem_cons_self d a)
    obtain ⟨h1, h2⟩ := ih c t (fun e he => h e (List.mem_cons_of_mem d he)) hc
    constructor
    · simp [List.takeWhile_cons, hd, h1]
    · simp [List.dropWhile_cons, hd, h2]

theorem ptakeWhile1_eval {f : Char → Bool} (a : Str) (c : Char) (t : Str)
    (ha : a ≠ []) (hall : ∀ d ∈ a, f d = true) (hc : f c = false) :
    ptakeWhile1 f (a ++ c :: t) = Except.ok (c :: t, a) := by
  obtain ⟨htw, hdw⟩ := takeWhile_all_append a c t hall hc
  have hemp : a.isEmpty = false := by
    cases a with
    | nil => exact absurd rfl ha
    | cons x xs => rfl
  simp only [ptakeWhile1, htw, hdw, hemp, Bool.false_eq_true, if_false]

theorem intTy_eval (d u : Str) (c : Char) (hd : d ≠ [])
    (hdig : ∀ e ∈ d, e.isDigit = true) (hc : c.isDigit = false) :
    Ir.intTy ('i' :: (d ++ c :: u)) =
      Except.ok (c :: u, Ty.integer (Ir.digitsVal d)) := by
  have h1 := ptakeWhile1_eval (f := Char.isDigit) d c u hd hdig hc
  simp only [Ir.intTy, pbind, pchar, if_pos, h1, ppure]

theorem parseTy_int_eval (fuel : Nat) (d u : Str) (c : Char) (hd : d ≠ [])
    (hdig : ∀ e ∈ d, e.isDigit = true) (hc : c = ')' ∨ c = ',') :
    Ir.parseTy (fuel + 1) ('i' :: (d ++ c :: u)) =
      Except.ok (c :: u, Ty.integer (Ir.digitsVal d)) := by
  have hcd : c.isDigit = false := by rcases hc with h | h <;> (subst h; decide)
  have hint := intTy_eval d u c hd hdig hcd
  have hh : Ir.headTy ('i' :: (d ++ c :: u)) =
      Except.ok (c :: u, some (Ty.integer (Ir.digitsVal d))) := by
    simp only [Ir.headTy, Ir.baseTy, palt, pbind, ppure]
    rw [show ptag (("void".toList)) ('i' :: (d ++ c :: u)) =
      Except.error ('i' :: (d ++ c :: u)) from rfl]
    rw [hint]
  simp only [Ir.parseTy, pbind, hh]
  rcases hc with h | h <;> subst h <;> rfl

theorem paramP_int_eval (d u : Str) (c : Char) (hd : d ≠ [])
    (hdig : ∀ e ∈ d, e.isDigit = true) (hc : c = ')' ∨ c = ',') :
    IrItem.paramP ('i' :: (d ++ c :: u)) =
      Except.ok (c :: u, Ty.integer (Ir.digitsVal d)) := by
  have hty : Ir.type_ ('i' :: (d ++ c :: u)) =
      Except.ok (c :: u, Ty.integer (Ir.digitsVal d)) := by
    simp only [Ir.type_, List.length_cons]
    exact parseTy_int_eval ((d ++ c :: u).length + 1) d u c hd hdig hc
  simp only [IrItem.paramP, pbind, hty]
  rcases hc with h | h <;> subst h <;> rfl

theorem renderTail2_len : ∀ ds : List Str, ds.length ≤ (renderTail2 ds).length := by
  intro ds
  induction ds with
  | nil => simp [renderTail2]
  | cons d t ih =>
    simp only [renderTail2, List.length_cons, List.length_append]
    omega

theorem paramP_rendered_eval (d : Str) (ds2 : List Str) (u : Str) (hd : d ≠ [])
    (hdig : ∀ e ∈ d, e.isDigit = true) :
    IrItem.paramP ('i' :: (d ++ (renderTail2 ds2 ++ ')' :: u))) =
      Except.ok (renderTail2 ds2 ++ ')' :: u, Ty.integer (Ir.digitsVal d)) := by
  cases ds2 with
  | nil => simpa [renderTail2] using paramP_int_eval d u ')' hd hdig (Or.inl rfl)
  | cons d2 t2 =>
    have hrw : renderTail2 (d2 :: t2) ++ ')' :: u =
        ',' :: ((' ' :: 'i' :: (d2 ++ renderTail2 t2)) ++ ')' :: u) := by
      simp [renderTail2]
    rw [hrw]
    exact paramP_int_eval d _ ',' hd hdig (Or.inr rfl)

theorem sepGo_int_eval :
    ∀ (ds : List Str) (fuel : Nat) (u : Str), DigitsOK ds →
      ds.length + 1 ≤ fuel →
      psepListGo IrItem.sepP IrItem.paramP fuel (renderTail2 ds ++ ')' :: u) =
        Except.ok (')' :: u, ds.map (fun d => Ty.integer (Ir.digitsVal d))) := by
  intro ds
  induction ds with
  | nil =>
    intro fuel u _ hf
    cases fuel with
    | zero => omega
    | succ n => rfl
  | cons d ds2 ih =>
    intro fuel u hds hf
    cases fuel with
    | zero => omega
    | succ n =>
      obtain ⟨hd, hdig⟩ := hds d (List.mem_cons_self d ds2)
      have hds2 : DigitsOK ds2 := fun e he => hds e (List.mem_cons_of_mem d he)
      have hshape : renderTail2 (d :: ds2) ++ ')' :: u =
          ',' :: ' ' :: 'i' :: (d ++ (renderTail2 ds2 ++ ')' :: u)) := by
        simp [renderTail2, List.append_assoc]
      rw [hshape]
      simp only [psepListGo]
      rw [show IrItem.sepP (',' :: ' ' :: 'i' :: (d ++ (renderTail2 ds2 ++ ')' :: u))) =
        Except.ok ('i' :: (d ++ (renderTail2 ds2 ++ ')' :: u)), ()) from rfl]
      dsimp only
      rw [if_neg (by
        intro heq
        have hl := congrArg List.length heq
        simp only [List.length_cons] at hl
        omega)]
      rw [paramP_rendered_eval d ds2 u hd hdig]
      dsimp only
      rw [ih n u hds2 (by simp only [List.length_cons] at hf; omega)]
      rfl

theorem sepList_int_eval (ds : List Str) (u : Str) (hds : DigitsOK ds) :
    psepList IrItem.sepP IrItem.paramP (renderArgs ds ++ ')' :: u) =
      Except.ok (')' :: u, ds.map (fun d => Ty.integer (Ir.digitsVal d))) := by
  cases ds with
  | nil => rfl
  | cons d ds2 =>
    obtain ⟨hd, hdig⟩ := hds d (List.mem_cons_self d ds2)
    have hds2 : DigitsOK ds2 := fun e he => hds e (List.mem_cons_of_mem d he)
    have hshape : renderArgs (d :: ds2) ++ ')' :: u =
        'i' :: (d ++ (renderTail2 ds2 ++ ')' :: u)) := by
      simp [renderArgs, List.append_assoc]
    rw [hshape]
    simp only [psepList]
    rw [paramP_rendered_eval d ds2 u hd hdig]
    dsimp only
    have hlen : (renderTail2 ds2 ++ ')' :: u).length =
        (renderTail2 ds2).length + (u.length + 1) := by
      simp [List.length_append]
    have hfuel : ds2.length + 1 ≤ (renderTail2 ds2 ++ ')' :: u).length + 1 := by
      have := renderTail2_len ds2
      omega
    rw [sepGo_int_eval ds2 ((renderTail2 ds2 ++ ')' :: u).length + 1) u hds2 hfuel]
    rfl

/-- C2: for every well-formed non-intrinsic declare input whose rendered
parameter list is the comma-separated integer types `iW1, ..., iWN`, the
recognizer returns `Declare{name, sig: Some{output, inputs}}` where
`inputs` lists the N parameter types in left-to-right source order (one per
rendered width); in particular `declare noalias i8* @malloc(i64)
unnamed_addr #3` yields name `malloc`, inputs `[Integer 64]` and output
`Some (Pointer (Integer 8))`. -/
theorem claim_C2_declare_signature :
    (∀ (s u : Str) (ds : List Str) (out : Option Ty) (n : Str),
      IrItem.declareHead s = Except.ok (renderArgs ds ++ ')' :: u, (out, n)) →
      (("llvm.".toList)).isPrefixOf n = false →
      DigitsOK ds →
      IrItem.declare s = Except.ok (eolSuffix u,
        Item.declare ⟨n, some ⟨out, ds.map (fun d => Ty.integer (Ir.digitsVal d))⟩⟩) ∧
      (ds.map (fun d => Ty.integer (Ir.digitsVal d))).length = ds.length) ∧
    IrItem.declare (("declare noalias i8* @malloc(i64) unnamed_addr #3".toList)) =
      Except.ok ([], Item.declare ⟨("malloc".toList),
        some ⟨some (Ty.pointer (Ty.integer 8)), [Ty.integer 64]⟩⟩) := by
  constructor
  · intro s u ds out n hhead hpre hds
    refine ⟨?_, by simp⟩
    simp only [IrItem.declare, pbind, hhead, hpre, Bool.false_eq_true, if_false]
    rw [sepList_int_eval ds u hds]
    rfl
  · rfl

theorem claim_C2_declare_signature_witness :
    IrItem.declare (("declare i8* @f(i64, i32)".toList)) =
      Except.ok ([], Item.declare ⟨("f".toList),
        some ⟨some (Ty.pointer (Ty.integer 8)), [Ty.integer 64, Ty.integer 32]⟩⟩) :=
  (claim_C2_declare_signature.1 (("declare i8* @f(i64, i32)".toList)) ([])
    ([("64".toList), ("32".toList)]) (some (Ty.pointer (Ty.integer 8)))
    (("f".toList)) rfl rfl (by unfold DigitsOK; decide)).1
